import Mathlib

/-!
Verification development for the psmq message-queue library.

The Python modules `validation.py`, `queue_ops.py`, `queue.py`, `utils.py`
and `serialize.py` are embedded shallowly below.  The atomic storage
backend (the Lua function library `psmq_library.lua` loaded by
`connection.py`) is not part of the Python sources; its operations are
modelled from the specification, as marked in their doc comments.
-/

set_option autoImplicit false

namespace Psmq

/-- Errors raised by the library, one constructor per exception class of
`exceptions.py` that the development needs, plus the backend's
invalid-argument failure. -/
inductive PsmqError where
  | invalidQueueName
  | queueNameTooLong (maxLen : Nat)
  | invalidCharacter (c : Char)
  | noMessageInQueue (qname : String)
  | unserializableMessage
  | undeserializableMessage (body : List Nat)
  | messageTooLarge
  | typeError (msg : String)
  | invalidArgument
deriving DecidableEq

/-- Primitive metadata values stored in a message's metadata map. -/
inductive MVal where
  | n (v : Nat)
  | s (v : String)
deriving DecidableEq

/-- A msgpack-encoded map, as produced by `umsgpack.packb`; modelled as an
injective constructor around the map entries. -/
inductive Packed where
  | packb (entries : List (String × MVal))
deriving DecidableEq

/-- One stored queue entry: the index member together with its map fields
(body, metadata, retrieval count `rc`, first-retrieval time `fr`) and its
index score `deliverAt` in epoch milliseconds. -/
structure StoredMsg where
  id : String
  body : List Nat
  meta : Packed
  deliverAt : Nat
  rc : Nat
  fr : Nat
deriving DecidableEq

/-- State of one queue: its configuration, counters and stored messages.
The sorted index and the associative map of the reference backend are
combined into the single `msgs` list (invariant 1 of the specification:
a message id is in the index iff its fields are in the map). -/
structure QState where
  vt : Nat
  delay : Nat
  maxsize : Nat
  created : Nat
  modified : Nat
  totalsent : Nat
  totalrecv : Nat
  msgs : List StoredMsg
deriving DecidableEq

/-- The whole backend: the set of queues, keyed by name. -/
abbrev Backend := List (String × QState)

/- ## Base-36 codec (modelled from the spec) -/

/-- The 36 digit characters, least value first; the Lua encoder emits
uppercase letters (`b36encode(35) = "Z"` per the repository's tests). -/
def b36chars : List Char :=
  "0123456789ABCDEFGHIJKLMNOPQRSTUVWXYZ".toList

/-- The lowercase forms of the base-36 digits, as written in the spec
(`digits 0-9a-z or case-equivalent`). -/
def b36lowChars : List Char :=
  "0123456789abcdefghijklmnopqrstuvwxyz".toList

/-- Digit character for one base-36 value. -/
def b36chr (d : Nat) : Char := b36chars.getD d '0'

/-- Case-insensitive value of one base-36 digit character; `none` for a
character outside the digit alphabet. -/
def b36val (c : Char) : Option Nat :=
  if '0' ≤ c ∧ c ≤ '9' then some (c.toNat - '0'.toNat)
  else if 'A' ≤ c ∧ c ≤ 'Z' then some (c.toNat - 'A'.toNat + 10)
  else if 'a' ≤ c ∧ c ≤ 'z' then some (c.toNat - 'a'.toNat + 10)
  else none

/-- Digit list of a positive number, most significant first, built onto
an accumulator. -/
def b36digitsAux (n : Nat) (acc : List Char) : List Char :=
  if h : n = 0 then acc
  else b36digitsAux (n / 36) (b36chr (n % 36) :: acc)
termination_by n
decreasing_by exact Nat.div_lt_self (Nat.pos_of_ne_zero h) (by norm_num)

/-- Modelled from the spec: the base-36 encoding of a natural number done
by the missing Lua `b36encode`; `b36encodeNat 0 = "0"`, no padding. -/
def b36encodeNat (n : Nat) : String :=
  if n = 0 then "0" else String.mk (b36digitsAux n [])

/-- Modelled from the spec: the Lua `b36encode`, which fails with an
invalid-argument error on negative input. -/
def b36_encode (n : Int) : Except PsmqError String :=
  if n < 0 then .error .invalidArgument else .ok (b36encodeNat n.toNat)

/-- Left-to-right accumulation of base-36 digit values; fails on the
first character outside the digit alphabet. -/
def b36decodeAux : List Char → Nat → Except PsmqError Nat
  | [], acc => .ok acc
  | c :: cs, acc =>
    match b36val c with
    | some v => b36decodeAux cs (acc * 36 + v)
    | none => .error .invalidArgument

/-- Modelled from the spec: the Lua `b36decode`, case-insensitive, which
fails with an invalid-argument error on a character outside `0-9a-z`
(case-equivalent). -/
def b36_decode (s : String) : Except PsmqError Nat :=
  b36decodeAux s.toList 0

/- ## Queue-name validation (`validation.py`) -/

/-- Whether a character is allowed in a queue name, the complement of the
pattern compiled in `QNAME_INVALID_CHARS_RE`. -/
def allowedChar (c : Char) : Bool :=
  decide (('A' ≤ c ∧ c ≤ 'Z') ∨ ('a' ≤ c ∧ c ≤ 'z') ∨
    ('0' ≤ c ∧ c ≤ '9') ∨ c = '.' ∨ c = '_' ∨ c = '-')

/-- Embedding of `validation.validate_queue_name`: empty name, overlong
name, then the leftmost disallowed character; `raiseOnError` selects
between raising and returning `False`, exactly as in the source. -/
def validate_queue_name (qname : String) (raiseOnError : Bool) :
    Except PsmqError Bool :=
  if qname.length = 0 then
    if raiseOnError then .error .invalidQueueName else .ok false
  else if 160 < qname.length then
    if raiseOnError then .error (.queueNameTooLong 160) else .ok false
  else
    match qname.toList.find? (fun c => ! allowedChar c) with
    | some c => if raiseOnError then .error (.invalidCharacter c) else .ok false
    | none => .ok true

/- ## Backend operations (modelled from the spec) -/

/-- A fresh queue with the given configuration, created at `now` epoch
seconds with zeroed counters and no messages. -/
def newQueue (vt delay maxsize now : Nat) : QState :=
  ⟨vt, delay, maxsize, now, now, 0, 0, []⟩

/-- Modelled from the spec: the Lua `create_queue`, idempotent; `true` on
first creation, `false` (configuration kept) when the queue exists. -/
def backend_create_queue (bst : Backend) (name : String)
    (vt delay maxsize now : Nat) : Bool × Backend :=
  if (bst.find? (fun p => p.1 == name)).isSome then (false, bst)
  else (true, bst ++ [(name, newQueue vt delay maxsize now)])

/-- Whether a stored message is visible (deliverable) at `now` ms. -/
def visibleb (now : Nat) (m : StoredMsg) : Bool :=
  decide (m.deliverAt ≤ now)

/-- Strict index order on entries: ascending score, ties broken by the
lexicographic member, matching the sorted index of the backend. -/
def msgLt (a b : StoredMsg) : Bool :=
  decide (a.deliverAt < b.deliverAt ∨ (a.deliverAt = b.deliverAt ∧ a.id < b.id))

/-- First entry of a list under `msgLt`. -/
def pickMin : List StoredMsg → Option StoredMsg
  | [] => none
  | m :: ms =>
    match pickMin ms with
    | none => some m
    | some b => some (if msgLt m b then m else b)

/-- The smallest-score entry whose `deliverAt` has passed, or `none`. -/
def selectMsg (st : QState) (now : Nat) : Option StoredMsg :=
  pickMin (st.msgs.filter (visibleb now))

/-- The mutation a receive applies to the selected entry: reschedule to
`now + vt * 1000`, bump `rc`, stamp `fr` on first retrieval. -/
def applyReceive (m : StoredMsg) (now evt : Nat) : StoredMsg :=
  { m with deliverAt := now + evt * 1000, rc := m.rc + 1,
           fr := if m.fr = 0 then now else m.fr }

/-- Modelled from the spec: the Lua `get_message`.  Effective visibility
timeout is the argument when given, else the queue's `vt`; the selected
entry is reindexed at `now + effective_vt * 1000`, its counters updated,
and `totalrecv` incremented; `none` when no entry is visible. -/
def get_message (st : QState) (vtOpt : Option Nat) (now : Nat) :
    Option StoredMsg × QState :=
  match selectMsg st now with
  | none => (none, st)
  | some m =>
    let m2 := applyReceive m now (vtOpt.getD st.vt)
    (some m2,
      { st with msgs := st.msgs.map (fun x => if x.id = m.id then m2 else x),
                totalrecv := st.totalrecv + 1 })

/-- Modelled from the spec: the Lua `delete_message`; removes the entry
from index and map, a no-op when absent, counters untouched. -/
def delete_message (st : QState) (mid : String) : QState :=
  { st with msgs := st.msgs.filter (fun x => decide (x.id ≠ mid)) }

/-- Modelled from the spec: the Lua `push_message`.  Fails with the
size-exceeded error when `0 < maxsize < len(body)`; the effective delay
is the argument when non-negative (the Python layer sends `-1` for a
missing delay), else the queue's delay; `sent` (epoch seconds) is
injected into the metadata map; the entry is appended and `totalsent`
incremented. -/
def backend_push (st : QState) (body : List Nat) (delay : Int)
    (meta : Packed) (mid : String) (nowMs : Nat) :
    Except PsmqError String × QState :=
  if 0 < st.maxsize ∧ st.maxsize < body.length then
    (.error .messageTooLarge, st)
  else
    let edelay : Nat := if 0 ≤ delay then delay.toNat else st.delay
    let entries := match meta with | .packb es => es
    let m : StoredMsg :=
      ⟨mid, body, .packb (("sent", MVal.n (nowMs / 1000)) :: entries),
        nowMs + edelay * 1000, 0, 0⟩
    (.ok mid, { st with msgs := st.msgs ++ [m], totalsent := st.totalsent + 1 })

/-- Modelled from the spec: the Lua `pop_message`, a receive immediately
followed by a delete as one atomic step. -/
def pop_message (st : QState) (now : Nat) : Option StoredMsg × QState :=
  match get_message st none now with
  | (none, st2) => (none, st2)
  | (some m, st2) => (some m, delete_message st2 m.id)

/- ## Python queue operations (`queue_ops.py`) -/

/-- Embedding of `queue_ops.create_queue`.  The source calls
`validate_queue_name(name)` with `raise_on_error` left at its `False`
default and discards the returned boolean, then invokes the backend
unconditionally; the discarded call is kept verbatim. -/
def qops_create_queue (bst : Backend) (name : String)
    (vt delay maxsize now : Nat) : Except PsmqError Bool × Backend :=
  let _ := validate_queue_name name false
  let r := backend_create_queue bst name vt delay maxsize now
  (.ok r.1, r.2)

/-- The possible runtime types of the `metadata` argument of
`queue_ops.push_message`: `None`, a `dict`, or anything else (a string
stands in for every non-dict value). -/
inductive PyMeta where
  | nil
  | dict (entries : List (String × MVal))
  | strv (s : String)
deriving DecidableEq

/-- Embedding of the argument preparation in `queue_ops.push_message`
(lines 80-87): `None` metadata becomes the encoded empty map, a dict is
encoded, anything else raises `TypeError("metadata must be a dict")`
before any backend call; a missing delay becomes the sentinel `-1`. -/
def push_message_args (metadata : PyMeta) (delay : Option Int) :
    Except PsmqError (Packed × Int) :=
  match metadata with
  | .nil => .ok (.packb [], delay.getD (-1))
  | .dict es => .ok (.packb es, delay.getD (-1))
  | .strv _ => .error (.typeError "metadata must be a dict")

/-- Embedding of `queue_ops.push_message`: prepare the arguments, then
perform the backend call; when preparation raises, no backend call is
made and the state is unchanged. -/
def qops_push_message (st : QState) (body : List Nat) (delay : Option Int)
    (metadata : PyMeta) (mid : String) (nowMs : Nat) :
    Except PsmqError String × QState :=
  match push_message_args metadata delay with
  | .error e => (.error e, st)
  | .ok (blob, d) => backend_push st body d blob mid nowMs

/- ## Facade (`queue.py`, `message.py`, `serialize.py`) -/

/-- The `data` attribute of a received message: the raw stored body, or
the value the deserializer hook produced. -/
inductive MsgData (β : Type) where
  | raw (b : List Nat)
  | parsed (v : β)
deriving DecidableEq

/-- Embedding of `message.ReceivedMessage`, restricted to the fields the
claims mention (`fr` is kept in epoch milliseconds). -/
structure RMsg (β : Type) where
  queue_name : String
  message_id : String
  data : MsgData β
  rc : Nat
  fr : Nat
deriving DecidableEq

/-- The conversion `queue_ops.get_message` applies to a backend reply:
the received entry becomes a `ReceivedMessage` whose `data` is the raw
stored body. -/
def toRMsg (β : Type) (qname : String) (m : StoredMsg) : RMsg β :=
  ⟨qname, m.id, .raw m.body, m.rc, m.fr⟩

/-- Embedding of `queue_ops.get_message`: backend receive plus the
conversion to a `ReceivedMessage`; `none` when the reply is empty. -/
def qops_get_message (β : Type) (st : QState) (qname : String)
    (vtOpt : Option Nat) (now : Nat) : Option (RMsg β) × QState :=
  match get_message st vtOpt now with
  | (none, st2) => (none, st2)
  | (some m, st2) => (some (toRMsg β qname m), st2)

/-- Embedding of the `Queue` facade: the queue name and the two user
hooks; a hook returning `none` models the Python callable raising. -/
structure QueueF (α β : Type) where
  name : String
  serializer : α → Option (List Nat)
  deserializer : List Nat → Option β

/-- Embedding of `Queue.serialize`: every failure of the user hook is
wrapped into `UnserializableMessage`. -/
def qserialize {α β : Type} (q : QueueF α β) (a : α) :
    Except PsmqError (List Nat) :=
  match q.serializer a with
  | some b => .ok b
  | none => .error .unserializableMessage

/-- Embedding of `Queue.deserialize`: every failure of the user hook is
wrapped into `UndeserializableMessage` carrying the offending bytes. -/
def qdeserialize {α β : Type} (q : QueueF α β) (b : List Nat) :
    Except PsmqError β :=
  match q.deserializer b with
  | some v => .ok v
  | none => .error (.undeserializableMessage b)

/-- Embedding of `Queue.get`: receive through `queue_ops.get_message`;
an empty reply raises `NoMessageInQueue` only under `raise_on_empty`; a
truthy (non-empty) body is deserialized through `Queue.deserialize`, a
falsy body is returned raw. -/
def queue_get {α β : Type} (q : QueueF α β) (st : QState) (now : Nat)
    (vtOpt : Option Nat) (raiseOnEmpty : Bool) :
    Except PsmqError (Option (RMsg β)) × QState :=
  match get_message st vtOpt now with
  | (none, st2) =>
    if raiseOnEmpty then (.error (.noMessageInQueue q.name), st2)
    else (.ok none, st2)
  | (some m, st2) =>
    if m.body.isEmpty then (.ok (some (toRMsg β q.name m)), st2)
    else
      match qdeserialize q m.body with
      | .ok v => (.ok (some ⟨q.name, m.id, .parsed v, m.rc, m.fr⟩), st2)
      | .error e => (.error e, st2)

/-- Embedding of `Queue.pop`: `get`, then `delete` when a message was
returned; an empty or raising `get` deletes nothing. -/
def queue_pop {α β : Type} (q : QueueF α β) (st : QState) (now : Nat)
    (raiseOnEmpty : Bool) : Except PsmqError (Option (RMsg β)) × QState :=
  match queue_get q st now none raiseOnEmpty with
  | (.ok (some m), st2) => (.ok (some m), delete_message st2 m.message_id)
  | r => r

/- ## Batched push (`Queue.push_many`) -/

/-- One `push_message` call queued on the pipeline: the serialized body
and the prepared delay sentinel and metadata blob. -/
structure PushCmd where
  body : List Nat
  delay : Int
  meta : Packed
deriving DecidableEq

/-- The loop body of `Queue.push_many` before `tx.execute()`: serialize
each value through `Queue.serialize` and prepare each call's arguments;
the first raise aborts the whole loop with nothing queued for
execution. -/
def buildCmds {α β : Type} (q : QueueF α β) (delay : Option Int) :
    List α → Except PsmqError (List PushCmd)
  | [] => .ok []
  | a :: rest =>
    match qserialize q a with
    | .error e => .error e
    | .ok body =>
      match push_message_args .nil delay with
      | .error e => .error e
      | .ok (blob, d) =>
        match buildCmds q delay rest with
        | .error e => .error e
        | .ok cmds => .ok (⟨body, d, blob⟩ :: cmds)

/-- Execution of the queued commands under Redis `MULTI`/`EXEC`
semantics: every command runs in order and each failing command leaves
only its own effect unapplied; the client raises the first error after
the whole batch has run (`raise_on_error` default of `execute`). -/
def execPipeline (nowMs : Nat) : QState → List (PushCmd × String) →
    List String → Option PsmqError → Except PsmqError (List String) × QState
  | st, [], acc, none => (.ok acc.reverse, st)
  | st, [], _, some e => (.error e, st)
  | st, (c, mid) :: rest, acc, firstErr =>
    match backend_push st c.body c.delay c.meta mid nowMs with
    | (.ok rid, st2) => execPipeline nowMs st2 rest (rid :: acc) firstErr
    | (.error e, st2) => execPipeline nowMs st2 rest acc (some (firstErr.getD e))

/-- Embedding of `Queue.push_many`: serialize everything, then execute
the pipeline; message ids are assigned at execution from `ids`. -/
def queue_push_many {α β : Type} (q : QueueF α β) (st : QState)
    (msgs : List α) (delay : Option Int) (ids : List String) (nowMs : Nat) :
    Except PsmqError (List String) × QState :=
  match buildCmds q delay msgs with
  | .error e => (.error e, st)
  | .ok cmds => execPipeline nowMs st (cmds.zip ids) [] none

/- ## Reply decoding (`utils.list_to_dict`) -/

/-- An element of a raw backend reply list: bytes, an already-decoded
string, or a number. -/
inductive RItem where
  | bts (b : List Nat)
  | strv (s : String)
  | intv (n : Int)
deriving DecidableEq

/-- The per-element treatment in `list_to_dict`: a bytes element is
UTF-8-decoded when the codec `dec` accepts it (`UnicodeDecodeError` is
caught and the bytes kept as-is); other elements pass through. -/
def decodeItem (dec : List Nat → Option String) : RItem → RItem
  | .bts b =>
    match dec b with
    | some s => .strv s
    | none => .bts b
  | x => x

/-- The `batched` helper of `list_to_dict` combined with `dict(...)`:
consecutive pairs of a list; an odd-length list makes `dict` raise,
modelled as `none`. -/
def toPairs : List RItem → Option (List (RItem × RItem))
  | [] => some []
  | [_] => none
  | k :: v :: rest => (toPairs rest).map (fun ps => (k, v) :: ps)

/-- Embedding of `utils.list_to_dict` (identical to the copy in
`connection.py`), parametrized by the UTF-8 codec `dec` supplied by the
Python runtime. -/
def list_to_dict (dec : List Nat → Option String) (l : List RItem) :
    Option (List (RItem × RItem)) :=
  toPairs (l.map (decodeItem dec))

/-- Lookup in a Python dict built from a pair list: the value paired
with the last occurrence of the key. -/
def dlookup (ps : List (RItem × RItem)) (k : RItem) : Option RItem :=
  (ps.reverse.find? (fun p => p.1 == k)).map (fun p => p.2)

/- ## Concrete states used by counterexamples and witnesses -/

/-- A stored message with body `"foo"`, never retrieved, ready at 0 ms. -/
def exMsgA : StoredMsg := ⟨"A", [102, 111, 111], .packb [], 0, 0, 0⟩

/-- A queue holding exactly `exMsgA`, visibility timeout 60 s, unbounded
payload size. -/
def exQueue1 : QState := ⟨60, 0, 0, 0, 0, 1, 0, [exMsgA]⟩

/-- A stored message whose body is the empty byte string. -/
def exMsgEmptyBody : StoredMsg := ⟨"A", [], .packb [], 0, 0, 0⟩

/-- A queue holding exactly `exMsgEmptyBody`. -/
def exQueueEmptyBody : QState := ⟨60, 0, 0, 0, 0, 1, 0, [exMsgEmptyBody]⟩

/-- An empty queue whose payload size limit is 3 bytes. -/
def exSmallQueue : QState := ⟨60, 0, 3, 0, 0, 0, 0, []⟩

/-- A facade whose hooks pass byte lists through unchanged. -/
def exIdQueueF : QueueF (List Nat) (List Nat) :=
  ⟨"q", fun b => some b, fun b => some b⟩

/-- A facade whose deserializer hook raises on every input. -/
def exRejectQueueF : QueueF (List Nat) (List Nat) :=
  ⟨"q", fun b => some b, fun _ => none⟩

/-- A facade whose serializer hook raises on every input. -/
def exFailSerQueueF : QueueF (List Nat) (List Nat) :=
  ⟨"q", fun _ => none, fun b => some b⟩

/-- A 161-character queue name, one over the allowed maximum. -/
def longInvalidName : String := String.mk (List.replicate 161 'a')

/- ## Helper lemmas: base-36 codec -/

theorem b36digitsAux_append (n : Nat) (acc : List Char) :
    b36digitsAux n acc = b36digitsAux n [] ++ acc := by
  by_cases h : n = 0
  · simp [b36digitsAux, h]
  · conv_lhs => rw [b36digitsAux]
    conv_rhs => rw [b36digitsAux]
    simp only [h, dite_false]
    rw [b36digitsAux_append (n / 36) (b36chr (n % 36) :: acc),
        b36digitsAux_append (n / 36) [b36chr (n % 36)]]
    simp
termination_by n
decreasing_by
  all_goals exact Nat.div_lt_self (Nat.pos_of_ne_zero h) (by norm_num)

theorem b36val_b36chr : ∀ d : Nat, d < 36 → b36val (b36chr d) = some d := by
  decide

theorem b36decodeAux_append (l1 l2 : List Char) (a m : Nat)
    (h : b36decodeAux l1 a = .ok m) :
    b36decodeAux (l1 ++ l2) a = b36decodeAux l2 m := by
  induction l1 generalizing a with
  | nil =>
    simp only [b36decodeAux, Except.ok.injEq] at h
    simp [h]
  | cons c cs ih =>
    rcases hv : b36val c with _ | v
    · simp [b36decodeAux, hv] at h
    · simp only [List.cons_append, b36decodeAux, hv] at h ⊢
      exact ih (a * 36 + v) h

theorem b36decodeAux_digits (n : Nat) (h : n ≠ 0) :
    b36decodeAux (b36digitsAux n []) 0 = .ok n := by
  rw [b36digitsAux]
  simp only [h, dite_false]
  rw [b36digitsAux_append]
  by_cases h2 : n / 36 = 0
  · rw [h2]
    have hnil : b36digitsAux 0 [] = [] := by rw [b36digitsAux]; simp
    rw [hnil, List.nil_append]
    have hlt : n % 36 < 36 := Nat.mod_lt _ (by norm_num)
    simp only [b36decodeAux, b36val_b36chr (n % 36) hlt, Except.ok.injEq]
    omega
  · rw [b36decodeAux_append _ _ 0 (n / 36) (b36decodeAux_digits (n / 36) h2)]
    have hlt : n % 36 < 36 := Nat.mod_lt _ (by norm_num)
    simp only [b36decodeAux, b36val_b36chr (n % 36) hlt, Except.ok.injEq]
    omega
termination_by n
decreasing_by
  all_goals exact Nat.div_lt_self (Nat.pos_of_ne_zero h) (by norm_num)

theorem b36digitsAux_chars (n : Nat) (acc : List Char) (c : Char)
    (hc : c ∈ b36digitsAux n acc) :
    (∃ d, d < 36 ∧ c = b36chr d) ∨ c ∈ acc := by
  by_cases h : n = 0
  · rw [b36digitsAux] at hc
    simp only [h, dite_true] at hc
    exact Or.inr hc
  · rw [b36digitsAux] at hc
    simp only [h, dite_false] at hc
    rcases b36digitsAux_chars (n / 36) (b36chr (n % 36) :: acc) c hc with hd | hmem
    · exact Or.inl hd
    · rcases List.mem_cons.mp hmem with heq | htl
      · exact Or.inl ⟨n % 36, Nat.mod_lt _ (by norm_num), heq⟩
      · exact Or.inr htl
termination_by n
decreasing_by
  all_goals exact Nat.div_lt_self (Nat.pos_of_ne_zero h) (by norm_num)

theorem b36chr_toLower : ∀ d : Nat, d < 36 → (b36chr d).toLower ∈ b36lowChars := by
  decide

theorem b36decodeAux_invalid (l : List Char) (a : Nat) (c : Char)
    (hc : c ∈ l) (hv : b36val c = none) :
    b36decodeAux l a = .error .invalidArgument := by
  induction l generalizing a with
  | nil => cases hc
  | cons x xs ih =>
    rcases List.mem_cons.mp hc with heq | htl
    · subst heq
      simp [b36decodeAux, hv]
    · rcases hx : b36val x with _ | v
      · simp [b36decodeAux, hx]
      · simp only [b36decodeAux, hx]
        exact ih (a * 36 + v) htl

theorem b36_roundtrip (n : Nat) : b36_decode (b36encodeNat n) = .ok n := by
  by_cases h : n = 0
  · subst h; rfl
  · unfold b36_decode b36encodeNat
    simp only [h, if_false]
    exact b36decodeAux_digits n h

theorem b36encodeNat_chars (n : Nat) :
    ∀ c ∈ (b36encodeNat n).toList, c.toLower ∈ b36lowChars := by
  by_cases h : n = 0
  · subst h; decide
  · intro c hc
    unfold b36encodeNat at hc
    simp only [h, if_false] at hc
    rcases b36digitsAux_chars n [] c hc with ⟨d, hd, rfl⟩ | hmem
    · exact b36chr_toLower d hd
    · cases hmem

/- ## Helper lemmas: message selection and receive -/

theorem pickMin_mem (l : List StoredMsg) (m : StoredMsg)
    (h : pickMin l = some m) : m ∈ l := by
  induction l with
  | nil => simp [pickMin] at h
  | cons x xs ih =>
    rcases hp : pickMin xs with _ | b
    · simp only [pickMin, hp, Option.some.injEq] at h
      rw [← h]
      exact List.mem_cons_self x xs
    · simp only [pickMin, hp, Option.some.injEq] at h
      by_cases hlt : msgLt x b
      · rw [if_pos hlt] at h
        rw [← h]
        exact List.mem_cons_self x xs
      · rw [if_neg hlt] at h
        rw [h] at hp
        exact List.mem_cons_of_mem x (ih hp)

theorem pickMin_eq_none_iff (l : List StoredMsg) : pickMin l = none ↔ l = [] := by
  cases l with
  | nil => simp [pickMin]
  | cons x xs =>
    simp only [pickMin]
    rcases pickMin xs with _ | b <;> simp

theorem selectMsg_spec (st : QState) (now : Nat) (m : StoredMsg)
    (h : selectMsg st now = some m) : m ∈ st.msgs ∧ m.deliverAt ≤ now := by
  have hm := pickMin_mem _ _ h
  have hf := List.mem_filter.mp hm
  exact ⟨hf.1, by simpa [visibleb] using hf.2⟩

theorem selectMsg_none_of_hidden (st : QState) (now : Nat)
    (h : ∀ m ∈ st.msgs, now < m.deliverAt) : selectMsg st now = none := by
  unfold selectMsg
  have hnil : st.msgs.filter (visibleb now) = [] := by
    refine List.filter_eq_nil_iff.mpr ?_
    intro a ha
    have := h a ha
    simp [visibleb]
    omega
  rw [hnil]
  rfl

theorem selectMsg_isSome (st : QState) (now : Nat) (m : StoredMsg)
    (hm : m ∈ st.msgs) (hv : m.deliverAt ≤ now) :
    ∃ m2, selectMsg st now = some m2 := by
  rcases hp : selectMsg st now with _ | m2
  · exfalso
    have hnil : st.msgs.filter (visibleb now) = [] := (pickMin_eq_none_iff _).mp hp
    have hmem : m ∈ st.msgs.filter (visibleb now) :=
      List.mem_filter.mpr ⟨hm, by simp [visibleb, hv]⟩
    rw [hnil] at hmem
    cases hmem
  · exact ⟨m2, rfl⟩

theorem get_message_none_inv (st : QState) (vtOpt : Option Nat) (now : Nat)
    (st2 : QState) (h : get_message st vtOpt now = (none, st2)) :
    st2 = st ∧ selectMsg st now = none := by
  unfold get_message at h
  rcases hs : selectMsg st now with _ | m
  · rw [hs] at h
    simp only [Prod.mk.injEq] at h
    exact ⟨h.2.symm, rfl⟩
  · rw [hs] at h
    simp at h

theorem get_message_some_inv (st : QState) (vtOpt : Option Nat) (now : Nat)
    (m2 : StoredMsg) (st2 : QState)
    (h : get_message st vtOpt now = (some m2, st2)) :
    ∃ m, selectMsg st now = some m ∧
      m2 = applyReceive m now (vtOpt.getD st.vt) ∧
      st2 = { st with msgs := st.msgs.map (fun x => if x.id = m.id then m2 else x),
                      totalrecv := st.totalrecv + 1 } := by
  unfold get_message at h
  rcases hs : selectMsg st now with _ | m
  · rw [hs] at h
    simp at h
  · rw [hs] at h
    simp only [Prod.mk.injEq, Option.some.injEq] at h
    exact ⟨m, rfl, h.1.symm, by rw [← h.2, ← h.1]⟩

/- ## Helper lemmas: backend push and the pipeline -/

theorem backend_push_err (st : QState) (body : List Nat) (delay : Int)
    (meta : Packed) (mid : String) (nowMs : Nat)
    (h : 0 < st.maxsize ∧ st.maxsize < body.length) :
    backend_push st body delay meta mid nowMs = (.error .messageTooLarge, st) := by
  unfold backend_push
  rw [if_pos h]

theorem backend_push_ok (st : QState) (body : List Nat) (delay : Int)
    (meta : Packed) (mid : String) (nowMs : Nat)
    (h : ¬(0 < st.maxsize ∧ st.maxsize < body.length)) :
    ∃ m : StoredMsg, m.id = mid ∧ m.body = body ∧
      backend_push st body delay meta mid nowMs
        = (.ok mid, { st with msgs := st.msgs ++ [m],
                              totalsent := st.totalsent + 1 }) := by
  unfold backend_push
  rw [if_neg h]
  exact ⟨_, rfl, rfl, rfl⟩

theorem execPipeline_tail (nowMs : Nat) (cmds : List (PushCmd × String))
    (st : QState) (acc : List String) (fe : Option PsmqError) :
    ∃ tail, (execPipeline nowMs st cmds acc fe).2.msgs = st.msgs ++ tail := by
  induction cmds generalizing st acc fe with
  | nil => cases fe <;> exact ⟨[], by simp [execPipeline]⟩
  | cons p rest ih =>
    obtain ⟨c, mid⟩ := p
    by_cases hb : 0 < st.maxsize ∧ st.maxsize < c.body.length
    · have he := backend_push_err st c.body c.delay c.meta mid nowMs hb
      simp only [execPipeline, he]
      exact ih st acc _
    · obtain ⟨m, _, _, he⟩ := backend_push_ok st c.body c.delay c.meta mid nowMs hb
      simp only [execPipeline, he]
      obtain ⟨tail, ht⟩ :=
        ih { st with msgs := st.msgs ++ [m], totalsent := st.totalsent + 1 }
          (mid :: acc) fe
      exact ⟨m :: tail, by simp only [ht]; simp⟩

theorem execPipeline_all_ok (nowMs : Nat) (cmds : List (PushCmd × String))
    (st : QState) (acc : List String)
    (hsz : ∀ p ∈ cmds, ¬(0 < st.maxsize ∧ st.maxsize < p.1.body.length)) :
    (execPipeline nowMs st cmds acc none).1
        = .ok (acc.reverse ++ cmds.map (fun p => p.2)) ∧
    (execPipeline nowMs st cmds acc none).2.totalsent
        = st.totalsent + cmds.length ∧
    (execPipeline nowMs st cmds acc none).2.msgs.map StoredMsg.id
        = st.msgs.map StoredMsg.id ++ cmds.map (fun p => p.2) := by
  induction cmds generalizing st acc with
  | nil => simp [execPipeline]
  | cons p rest ih =>
    obtain ⟨c, mid⟩ := p
    have hb := hsz (c, mid) (List.mem_cons_self _ _)
    obtain ⟨m, hmid, _, he⟩ := backend_push_ok st c.body c.delay c.meta mid nowMs hb
    simp only [execPipeline, he]
    have hsz2 : ∀ p ∈ rest,
        ¬(0 < ({ st with msgs := st.msgs ++ [m],
                         totalsent := st.totalsent + 1 } : QState).maxsize ∧
          ({ st with msgs := st.msgs ++ [m],
                     totalsent := st.totalsent + 1 } : QState).maxsize
            < p.1.body.length) := by
      intro pp hp
      simpa using hsz pp (List.mem_cons_of_mem _ hp)
    obtain ⟨h1, h2, h3⟩ := ih _ (mid :: acc) hsz2
    refine ⟨?_, ?_, ?_⟩
    · rw [h1]; simp
    · rw [h2]; simp; omega
    · rw [h3]; simp [hmid]

theorem buildCmds_err {α β : Type} (q : QueueF α β) (delay : Option Int)
    (msgs : List α) (h : ∃ a ∈ msgs, q.serializer a = none) :
    buildCmds q delay msgs = .error .unserializableMessage := by
  induction msgs with
  | nil => simp at h
  | cons a rest ih =>
    obtain ⟨x, hx, hser⟩ := h
    rcases hsa : q.serializer a with _ | b
    · simp [buildCmds, qserialize, hsa]
    · rcases List.mem_cons.mp hx with rfl | hxr
      · rw [hsa] at hser; cases hser
      · simp only [buildCmds, qserialize, hsa, push_message_args]
        rw [ih ⟨x, hxr, hser⟩]

theorem queue_get_empty {α β : Type} (q : QueueF α β) (stX : QState)
    (hms : stX.msgs = []) (now2 : Nat) (vt2 : Option Nat) :
    queue_get q stX now2 vt2 false = (.ok none, stX) := by
  have hsel : selectMsg stX now2 = none := by
    unfold selectMsg
    rw [hms]
    rfl
  have hg : get_message stX vt2 now2 = (none, stX) := by
    unfold get_message
    rw [hsel]
  simp [queue_get, hg]

theorem queue_pop_empty {α β : Type} (q : QueueF α β) (stX : QState)
    (hms : stX.msgs = []) (now2 : Nat) :
    queue_pop q stX now2 false = (.ok none, stX) := by
  simp [queue_pop, queue_get_empty q stX hms now2 none]

/- ## Helper lemmas: reply decoding -/

theorem list_to_dict_even (dec : List Nat → Option String) (l : List RItem)
    (h : l.length % 2 = 0) :
    ∃ ps, list_to_dict dec l = some ps ∧ ps.length * 2 = l.length ∧
      ∀ i, 2 * i + 1 < l.length →
        ps.getD i (.bts [], .bts [])
          = (decodeItem dec (l.getD (2 * i) (.bts [])),
             decodeItem dec (l.getD (2 * i + 1) (.bts []))) := by
  match l with
  | [] =>
    exact ⟨[], rfl, rfl, by intro i hi; simp at hi⟩
  | [x] =>
    simp only [List.length_singleton] at h
    omega
  | k :: v :: rest =>
    have h2 : rest.length % 2 = 0 := by
      simp only [List.length_cons] at h
      omega
    obtain ⟨ps, hps, hlen, hidx⟩ := list_to_dict_even dec rest h2
    refine ⟨(decodeItem dec k, decodeItem dec v) :: ps, ?_, ?_, ?_⟩
    · simp only [list_to_dict, List.map_cons, toPairs]
      simp only [list_to_dict] at hps
      rw [hps]
      rfl
    · simp only [List.length_cons]
      omega
    · intro i hi
      match i with
      | 0 => simp [List.getD]
      | Nat.succ j =>
        have hj : 2 * j + 1 < rest.length := by
          simp only [List.length_cons] at hi
          omega
        have hrec := hidx j hj
        have e1 : 2 * (j + 1) = 2 * j + 1 + 1 := by omega
        simp only [List.getD_cons_succ]
        rw [e1]
        simp only [List.getD_cons_succ]
        exact hrec
termination_by l.length
decreasing_by simp only [List.length_cons]; omega

/- ## Claims -/

/-- C1: the claim says `create_queue` rejects invalid names (empty name
with `InvalidQueueName`, overlong name with `QueueNameTooLong`, a
disallowed character with `InvalidCharacter` carrying the first such
character, and no error for a valid name).  The validator called with
`raise_on_error=True` behaves exactly so, but `queue_ops.create_queue`
invokes it with `raise_on_error` left `False` and discards the result,
so the operation never raises a validation error: the first two
conjuncts evaluate the code at the failing input (empty name accepted),
the rest prove the claimed behavior of the validator itself. -/
theorem c1_create_queue_validation :
    (∀ (bst : Backend) (name : String) (vt delay maxsize now : Nat),
        (qops_create_queue bst name vt delay maxsize now).1
          = .ok (backend_create_queue bst name vt delay maxsize now).1) ∧
    (qops_create_queue [] "" 60 0 65565 0).1 = .ok true ∧
    validate_queue_name "" true = .error .invalidQueueName ∧
    validate_queue_name longInvalidName true = .error (.queueNameTooLong 160) ∧
    validate_queue_name "bad@name" true = .error (.invalidCharacter '@') ∧
    (∀ qname : String, qname.length ≠ 0 → qname.length ≤ 160 →
        (∀ c ∈ qname.toList, allowedChar c = true) →
        validate_queue_name qname true = .ok true) := by
  refine ⟨fun _ _ _ _ _ _ => rfl, rfl, rfl, ?_, rfl, ?_⟩
  · have hlen : longInvalidName.length = 161 := by
      show (List.replicate 161 'a').length = 161
      simp
    unfold validate_queue_name
    rw [hlen]
    norm_num
  · intro qname h1 h2 h3
    unfold validate_queue_name
    rw [if_neg h1, if_neg (by omega)]
    rcases hf : qname.toList.find? (fun c => ! allowedChar c) with _ | c
    · rfl
    · have hc := List.find?_some hf
      have hmem := List.mem_of_find?_eq_some hf
      rw [h3 c hmem] at hc
      cases hc

/-- Witness for C1: a well-formed name passes validation, and the
failing input (the empty name) is accepted by `queue_ops.create_queue`
without any validation error. -/
theorem c1_create_queue_validation_witness :
    validate_queue_name "orders.2024_11-x" true = .ok true ∧
    (qops_create_queue [] "" 60 0 65565 0).1 = .ok true := by
  exact ⟨c1_create_queue_validation.2.2.2.2.2 "orders.2024_11-x"
      (by decide) (by decide) (by decide),
    c1_create_queue_validation.2.1⟩

/-- C7: base-36 codec round trip.  Encoding any natural number succeeds
and decodes back to it, `b36_encode 0 = "0"`, every emitted digit is a
case-equivalent of `0-9a-z` (decoding is case-insensitive), a negative
input fails, and a string with a character outside the digit alphabet
fails to decode. -/
theorem c7_b36_codec_roundtrip :
    (∀ n : Nat, b36_encode (n : Int) = .ok (b36encodeNat n) ∧
        b36_decode (b36encodeNat n) = .ok n ∧
        ∀ c ∈ (b36encodeNat n).toList, c.toLower ∈ b36lowChars) ∧
    b36encodeNat 0 = "0" ∧
    (∀ m : Int, m < 0 → b36_encode m = .error .invalidArgument) ∧
    (∀ (s : String) (c : Char), c ∈ s.toList → b36val c = none →
        b36_decode s = .error .invalidArgument) := by
  refine ⟨?_, rfl, ?_, ?_⟩
  · intro n
    refine ⟨?_, b36_roundtrip n, b36encodeNat_chars n⟩
    unfold b36_encode
    rw [if_neg (by omega)]
    simp
  · intro m hm
    unfold b36_encode
    rw [if_pos hm]
  · intro s c hc hv
    exact b36decodeAux_invalid s.toList 0 c hc hv

/-- Witness for C7: the round trip at 36 (= "10"), rejection of a
negative number, and rejection of a string with an invalid character. -/
theorem c7_b36_codec_roundtrip_witness :
    b36_decode (b36encodeNat 36) = .ok 36 ∧
    b36_encode (-5) = .error .invalidArgument ∧
    b36_decode "f!o" = .error .invalidArgument := by
  exact ⟨(c7_b36_codec_roundtrip.1 36).2.1,
    c7_b36_codec_roundtrip.2.2.1 (-5) (by norm_num),
    c7_b36_codec_roundtrip.2.2.2 "f!o" '!' (by decide) (by decide)⟩

/-- C10: `list_to_dict` on an even-length reply yields the dictionary
(pair list) matching each element at an even index with the element that
follows it, after per-element decoding: a decodable bytes element
becomes its string, a non-decodable bytes element is kept as-is, and
non-bytes elements pass through; the empty list yields the empty
dictionary.  The UTF-8 codec is the runtime's and enters as the
parameter `dec`. -/
theorem c10_list_to_dict (dec : List Nat → Option String) :
    list_to_dict dec [] = some [] ∧
    (∀ b s, dec b = some s → decodeItem dec (.bts b) = .strv s) ∧
    (∀ b, dec b = none → decodeItem dec (.bts b) = .bts b) ∧
    (∀ s, decodeItem dec (.strv s) = .strv s) ∧
    (∀ n, decodeItem dec (.intv n) = .intv n) ∧
    (∀ l : List RItem, l.length % 2 = 0 →
        ∃ ps, list_to_dict dec l = some ps ∧ ps.length * 2 = l.length ∧
          ∀ i, 2 * i + 1 < l.length →
            ps.getD i (.bts [], .bts [])
              = (decodeItem dec (l.getD (2 * i) (.bts [])),
                 decodeItem dec (l.getD (2 * i + 1) (.bts [])))) := by
  refine ⟨rfl, ?_, ?_, fun _ => rfl, fun _ => rfl, list_to_dict_even dec⟩
  · intro b s hb
    simp [decodeItem, hb]
  · intro b hb
    simp [decodeItem, hb]

/-- Witness for C10: a two-element reply with a decodable key becomes a
one-pair dictionary. -/
theorem c10_list_to_dict_witness :
    ∃ ps, list_to_dict (fun b => if b = [97] then some "a" else none)
        [.bts [97], .intv 5] = some ps ∧ ps.length * 2 = 2 := by
  obtain ⟨ps, h1, h2, _⟩ :=
    (c10_list_to_dict (fun b => if b = [97] then some "a" else none)).2.2.2.2.2
      [.bts [97], .intv 5] (by decide)
  exact ⟨ps, h1, h2⟩

/-- Counterexample for C3: a message that became ready at 0 ms and is
received at 5000 ms with visibility timeout 10 s is rescheduled to
15000 ms, an advance of 15000 ms over its previous index score, not of
exactly `effective_vt * 1000 = 10000` ms as the claim states. -/
theorem c3_receive_advance_counterexample :
    (get_message exQueue1 (some 10) 5000).1
        = some ⟨"A", [102, 111, 111], .packb [], 15000, 1, 5000⟩ ∧
    exMsgA.deliverAt = 0 ∧
    (15000 : Nat) ≠ exMsgA.deliverAt + 10 * 1000 := by
  exact ⟨rfl, rfl, by decide⟩

/-- C3 (amended): when a receive returns a message, the effective
visibility timeout is the argument if provided, else the queue's `vt`;
the message's new index score equals `now + effective_vt * 1000` — an
advance of at least `effective_vt * 1000` over its previous score, and
of exactly that amount iff the receive happens at the message's
deliver-at instant — `rc` is incremented by 1, `fr` is set to `now` iff
it was 0, the message stays in the index and map, and `totalrecv` is
incremented. -/
theorem c3_receive_postcondition (st : QState) (vtOpt : Option Nat) (now : Nat)
    (m2 : StoredMsg) (st2 : QState)
    (h : get_message st vtOpt now = (some m2, st2)) :
    ∃ m ∈ st.msgs, m.deliverAt ≤ now ∧
      m2.id = m.id ∧ m2.body = m.body ∧
      m2.deliverAt = now + (vtOpt.getD st.vt) * 1000 ∧
      m.deliverAt + (vtOpt.getD st.vt) * 1000 ≤ m2.deliverAt ∧
      (m.deliverAt = now → m2.deliverAt = m.deliverAt + (vtOpt.getD st.vt) * 1000) ∧
      m2.rc = m.rc + 1 ∧
      m2.fr = (if m.fr = 0 then now else m.fr) ∧
      m2 ∈ st2.msgs ∧
      st2.totalrecv = st.totalrecv + 1 := by
  obtain ⟨m, hs, hm2, hst2⟩ := get_message_some_inv st vtOpt now m2 st2 h
  obtain ⟨hmem, hle⟩ := selectMsg_spec st now m hs
  subst hm2
  subst hst2
  refine ⟨m, hmem, hle, rfl, rfl, rfl, ?_, ?_, rfl, rfl, ?_, rfl⟩
  · exact Nat.add_le_add_right hle _
  · intro he
    rw [he]
    rfl
  · have hmm : (applyReceive m now (vtOpt.getD st.vt)) ∈
        st.msgs.map (fun x => if x.id = m.id
          then applyReceive m now (vtOpt.getD st.vt) else x) :=
      List.mem_map.mpr ⟨m, hmem, by simp⟩
    exact hmm

/-- Witness for C3 (amended): a receive at the deliver-at instant with
an explicit 10 s timeout. -/
theorem c3_receive_postcondition_witness :
    ∃ m ∈ exQueue1.msgs, m.deliverAt ≤ 0 ∧
      (⟨"A", [102, 111, 111], Packed.packb [], 10000, 1, 0⟩ : StoredMsg).id = m.id := by
  obtain ⟨m, hm, hle, hid, _⟩ :=
    c3_receive_postcondition exQueue1 (some 10) 0
      ⟨"A", [102, 111, 111], .packb [], 10000, 1, 0⟩
      ⟨60, 0, 0, 0, 0, 1, 1, [⟨"A", [102, 111, 111], .packb [], 10000, 1, 0⟩]⟩
      rfl
  exact ⟨m, hm, hle, hid⟩

/-- C4: on a queue with no visible message, `Queue.get` raises
`NoMessageInQueue` iff `raise_on_empty` is true and returns `None`
otherwise; when a visible message exists, `NoMessageInQueue` is never
raised regardless of the flag. -/
theorem c4_empty_queue_get {α β : Type} (q : QueueF α β) (st : QState)
    (now : Nat) (vtOpt : Option Nat) :
    ((∀ m ∈ st.msgs, now < m.deliverAt) →
        (queue_get q st now vtOpt true).1 = .error (.noMessageInQueue q.name) ∧
        (queue_get q st now vtOpt false).1 = .ok none) ∧
    ((∃ m ∈ st.msgs, m.deliverAt ≤ now) →
        ∀ (flag : Bool) (nm : String),
          (queue_get q st now vtOpt flag).1 ≠ .error (.noMessageInQueue nm)) := by
  constructor
  · intro h
    have hsel := selectMsg_none_of_hidden st now h
    have hg : get_message st vtOpt now = (none, st) := by
      unfold get_message
      rw [hsel]
    constructor <;> simp [queue_get, hg]
  · rintro ⟨m, hm, hv⟩ flag nm
    obtain ⟨m2, hsel⟩ := selectMsg_isSome st now m hm hv
    rcases hgm : get_message st vtOpt now with ⟨mo, st2⟩
    cases mo with
    | none =>
      obtain ⟨-, hnone⟩ := get_message_none_inv st vtOpt now st2 hgm
      rw [hsel] at hnone
      cases hnone
    | some m3 =>
      by_cases hb : m3.body.isEmpty
      · simp [queue_get, hgm, hb]
      · rcases hd : q.deserializer m3.body with _ | v
        · simp [queue_get, hgm, hb, qdeserialize, hd]
        · simp [queue_get, hgm, hb, qdeserialize, hd]

/-- Witness for C4: the empty queue raises under the flag, a queue with
a ready message never raises `NoMessageInQueue`. -/
theorem c4_empty_queue_get_witness :
    (queue_get exIdQueueF (newQueue 60 0 65565 0) 5 none true).1
        = .error (.noMessageInQueue "q") ∧
    (queue_get exIdQueueF exQueue1 5 none true).1
        ≠ .error (.noMessageInQueue "q") := by
  refine ⟨((c4_empty_queue_get exIdQueueF (newQueue 60 0 65565 0) 5 none).1
      (by simp [newQueue])).1, ?_⟩
  exact (c4_empty_queue_get exIdQueueF exQueue1 5 none).2
    ⟨exMsgA, by simp [exQueue1], by decide⟩ true "q"

/-- C8: when the received message's stored body is empty (falsy), the
facade returns the message with `data` equal to the raw stored body and
the deserializer hook is never consulted — the result is the same for
every deserializer, including ones that reject the empty body. -/
theorem c8_empty_body_skips_deserializer {α β : Type} (q : QueueF α β)
    (st : QState) (now : Nat) (vtOpt : Option Nat) (flag : Bool)
    (m2 : StoredMsg) (st2 : QState)
    (h : get_message st vtOpt now = (some m2, st2)) (hb : m2.body = []) :
    queue_get q st now vtOpt flag = (.ok (some (toRMsg β q.name m2)), st2) ∧
    (toRMsg β q.name m2).data = MsgData.raw m2.body := by
  have hbe : m2.body.isEmpty = true := by
    rw [hb]
    rfl
  exact ⟨by simp [queue_get, h, hbe], rfl⟩

/-- Witness for C8: receiving an empty-body message through a facade
whose deserializer rejects every input still succeeds and returns the
raw empty body. -/
theorem c8_empty_body_skips_deserializer_witness :
    queue_get exRejectQueueF exQueueEmptyBody 0 none false
      = (.ok (some (toRMsg (List Nat) "q" ⟨"A", [], .packb [], 60000, 1, 0⟩)),
         ⟨60, 0, 0, 0, 0, 1, 1, [⟨"A", [], .packb [], 60000, 1, 0⟩]⟩) := by
  exact (c8_empty_body_skips_deserializer exRejectQueueF exQueueEmptyBody 0
    none false ⟨"A", [], .packb [], 60000, 1, 0⟩
    ⟨60, 0, 0, 0, 0, 1, 1, [⟨"A", [], .packb [], 60000, 1, 0⟩]⟩ rfl rfl).1

/-- C9: `queue_ops.push_message` raises `TypeError("metadata must be a
dict")` iff the metadata argument is neither `None` nor a dict, and then
no backend call happens (state unchanged); `None` metadata is sent as
the encoded empty map; a missing delay is transmitted as the sentinel
`-1`, which makes the backend apply the queue's configured delay. -/
theorem c9_push_message_metadata (st : QState) (body : List Nat)
    (delay : Option Int) (metadata : PyMeta) (mid : String) (now : Nat) :
    ((qops_push_message st body delay metadata mid now).1
        = .error (.typeError "metadata must be a dict")
      ↔ ∃ s, metadata = .strv s) ∧
    ((∃ s, metadata = .strv s) →
        qops_push_message st body delay metadata mid now
          = (.error (.typeError "metadata must be a dict"), st)) ∧
    push_message_args .nil delay = .ok (.packb [], delay.getD (-1)) ∧
    (¬(0 < st.maxsize ∧ st.maxsize < body.length) →
        (qops_push_message st body none .nil mid now).2.msgs
          = st.msgs ++ [⟨mid, body, .packb [("sent", .n (now / 1000))],
              now + st.delay * 1000, 0, 0⟩]) := by
  refine ⟨⟨?_, ?_⟩, ?_, ?_, ?_⟩
  · intro h
    cases metadata with
    | nil =>
      have heq : qops_push_message st body delay .nil mid now
          = backend_push st body (delay.getD (-1)) (.packb []) mid now := rfl
      rw [heq] at h
      unfold backend_push at h
      by_cases hsz : 0 < st.maxsize ∧ st.maxsize < body.length
      · rw [if_pos hsz] at h
        simp at h
      · rw [if_neg hsz] at h
        simp at h
    | dict es =>
      have heq : qops_push_message st body delay (.dict es) mid now
          = backend_push st body (delay.getD (-1)) (.packb es) mid now := rfl
      rw [heq] at h
      unfold backend_push at h
      by_cases hsz : 0 < st.maxsize ∧ st.maxsize < body.length
      · rw [if_pos hsz] at h
        simp at h
      · rw [if_neg hsz] at h
        simp at h
    | strv s => exact ⟨s, rfl⟩
  · rintro ⟨s, rfl⟩
    rfl
  · rintro ⟨s, rfl⟩
    rfl
  · rfl
  · intro hsz
    show (backend_push st body (-1) (.packb []) mid now).2.msgs = _
    unfold backend_push
    rw [if_neg hsz]
    norm_num

/-- Witness for C9: non-dict metadata raises with the state unchanged; a
push with missing delay and `None` metadata stores the encoded map
containing only `sent` and uses the queue's delay. -/
theorem c9_push_message_metadata_witness :
    qops_push_message exSmallQueue [1] (some 2) (.strv "x") "A" 0
      = (.error (.typeError "metadata must be a dict"), exSmallQueue) ∧
    (qops_push_message exSmallQueue [1] none .nil "A" 7000).2.msgs
      = [⟨"A", [1], .packb [("sent", .n 7)], 7000, 0, 0⟩] := by
  refine ⟨(c9_push_message_metadata exSmallQueue [1] (some 2) (.strv "x")
      "A" 0).2.1 ⟨"x", rfl⟩, ?_⟩
  have h := (c9_push_message_metadata exSmallQueue [1] none .nil "A"
    7000).2.2.2 (by decide)
  simpa [exSmallQueue] using h

/-- Counterexample for C2: a two-message batch into a queue with
`maxsize = 3` where the second body has 5 bytes.  `push_many` raises
(`MessageTooLarge` from the second push), yet the first message of the
batch has been written: the state is not unchanged, so the batch is not
all-or-nothing.  Redis `MULTI`/`EXEC` runs every queued command and does
not roll back the ones that succeeded. -/
theorem c2_push_many_partial_write_counterexample :
    (queue_push_many exIdQueueF exSmallQueue [[1, 2], [1, 2, 3, 4, 5]] none
        ["A", "B"] 0).1 = .error .messageTooLarge ∧
    (queue_push_many exIdQueueF exSmallQueue [[1, 2], [1, 2, 3, 4, 5]] none
        ["A", "B"] 0).2.msgs.length = 1 ∧
    exSmallQueue.msgs.length = 0 := by
  exact ⟨rfl, rfl, rfl⟩

/-- C2 (amended): `push_many` fails before execution with nothing
written when serializing any value fails; previously stored messages are
never removed by a batch; and when every command serializes and every
body fits, the batch writes every message and returns the ordered list
of the assigned ids.  A push failing at execution does not undo the
other pushes of the batch (see the counterexample). -/
theorem c2_push_many_batches {α β : Type} (q : QueueF α β) (st : QState)
    (msgs : List α) (delay : Option Int) (ids : List String) (nowMs : Nat) :
    ((∃ a ∈ msgs, q.serializer a = none) →
        queue_push_many q st msgs delay ids nowMs
          = (.error .unserializableMessage, st)) ∧
    (∃ tail, (queue_push_many q st msgs delay ids nowMs).2.msgs
        = st.msgs ++ tail) ∧
    (∀ cmds, buildCmds q delay msgs = .ok cmds → ids.length = cmds.length →
        (∀ c ∈ cmds, ¬(0 < st.maxsize ∧ st.maxsize < c.body.length)) →
        (queue_push_many q st msgs delay ids nowMs).1 = .ok ids ∧
        (queue_push_many q st msgs delay ids nowMs).2.totalsent
            = st.totalsent + cmds.length ∧
        (queue_push_many q st msgs delay ids nowMs).2.msgs.map StoredMsg.id
            = st.msgs.map StoredMsg.id ++ ids) := by
  refine ⟨?_, ?_, ?_⟩
  · intro h
    unfold queue_push_many
    rw [buildCmds_err q delay msgs h]
  · rcases hb : buildCmds q delay msgs with e | cmds
    · unfold queue_push_many
      rw [hb]
      exact ⟨[], by simp⟩
    · unfold queue_push_many
      rw [hb]
      exact execPipeline_tail nowMs (cmds.zip ids) st [] none
  · intro cmds hb hlen hsz
    have hq : queue_push_many q st msgs delay ids nowMs
        = execPipeline nowMs st (cmds.zip ids) [] none := by
      unfold queue_push_many
      rw [hb]
    rw [hq]
    have hsz2 : ∀ p ∈ cmds.zip ids,
        ¬(0 < st.maxsize ∧ st.maxsize < p.1.body.length) := by
      intro p hp
      exact hsz p.1 (List.of_mem_zip hp).1
    obtain ⟨h1, h2, h3⟩ := execPipeline_all_ok nowMs (cmds.zip ids) st [] hsz2
    have hmap : (cmds.zip ids).map (fun p => p.2) = ids := by
      have hm := List.map_snd_zip cmds ids (by omega)
      simpa using hm
    rw [hmap] at h1 h3
    have hclen : (cmds.zip ids).length = cmds.length := by
      rw [List.length_zip]
      omega
    rw [hclen] at h2
    exact ⟨by simpa using h1, h2, h3⟩

/-- Witness for C2 (amended): a fitting two-message batch succeeds and
returns both ids in order; a batch whose first value fails to serialize
leaves the queue untouched. -/
theorem c2_push_many_batches_witness :
    (queue_push_many exIdQueueF exSmallQueue [[1], [2, 3]] none
        ["A", "B"] 0).1 = .ok ["A", "B"] ∧
    queue_push_many exFailSerQueueF exSmallQueue [[1]] none ["A"] 0
      = (.error .unserializableMessage, exSmallQueue) := by
  refine ⟨?_, ?_⟩
  · exact ((c2_push_many_batches exIdQueueF exSmallQueue [[1], [2, 3]] none
      ["A", "B"] 0).2.2 [⟨[1], -1, .packb []⟩, ⟨[2, 3], -1, .packb []⟩]
      rfl rfl (by decide)).1
  · exact (c2_push_many_batches exFailSerQueueF exSmallQueue [[1]] none
      ["A"] 0).1 ⟨[1], by simp, rfl⟩

/-- Counterexample for C6: a received message whose stored body is empty
is returned raw by `Queue.get` even though the configured deserializer
rejects that body, so "for every received message whose body the
deserializer rejects, get fails with UndeserializableMessage" is false
as stated. -/
theorem c6_empty_body_not_wrapped_counterexample :
    exRejectQueueF.deserializer [] = none ∧
    (queue_get exRejectQueueF exQueueEmptyBody 0 none false).1
        = .ok (some ⟨"q", "A", .raw [], 1, 0⟩) := by
  exact ⟨rfl, rfl⟩

/-- C6 (amended): for every received message with a non-empty body that
the configured deserializer rejects, `Queue.get` fails with
`UndeserializableMessage` carrying the offending bytes and does not
return the message; `Queue.deserialize` wraps every failure of the user
hook into `UndeserializableMessage` and passes successes through. -/
theorem c6_undeserializable_wrapped {α β : Type} (q : QueueF α β)
    (st : QState) (now : Nat) (vtOpt : Option Nat) (flag : Bool)
    (m2 : StoredMsg) (st2 : QState)
    (h : get_message st vtOpt now = (some m2, st2))
    (hne : m2.body ≠ [])
    (hd : q.deserializer m2.body = none) :
    queue_get q st now vtOpt flag
        = (.error (.undeserializableMessage m2.body), st2) ∧
    (∀ b, q.deserializer b = none →
        qdeserialize q b = .error (.undeserializableMessage b)) ∧
    (∀ b v, q.deserializer b = some v → qdeserialize q b = .ok v) := by
  have hbe : m2.body.isEmpty = false := by
    rcases hL : m2.body with _ | ⟨x, xs⟩
    · exact absurd hL hne
    · rfl
  refine ⟨by simp [queue_get, h, hbe, qdeserialize, hd], ?_, ?_⟩
  · intro b hb
    simp [qdeserialize, hb]
  · intro b v hb
    simp [qdeserialize, hb]

/-- Witness for C6 (amended): a non-empty body rejected by the
deserializer makes `Queue.get` fail with `UndeserializableMessage`. -/
theorem c6_undeserializable_wrapped_witness :
    (queue_get exRejectQueueF exQueue1 0 none false).1
      = .error (.undeserializableMessage [102, 111, 111]) := by
  have h := c6_undeserializable_wrapped exRejectQueueF exQueue1 0 none false
    ⟨"A", [102, 111, 111], .packb [], 60000, 1, 0⟩
    ⟨60, 0, 0, 0, 0, 1, 1, [⟨"A", [102, 111, 111], .packb [], 60000, 1, 0⟩]⟩
    rfl (by decide) rfl
  exact congrArg Prod.fst h.1

/-- C5: `Queue.pop` returns exactly what `Queue.get` returns; when a
message is returned it is deleted afterwards (no entry with its id
remains, and on a queue that held only that message a subsequent `get`
or `pop` returns `None`); when no message is returned nothing is
deleted (the state is the pre-call state on an empty reply, and the
`get` post-state when `get` raised). -/
theorem c5_pop_is_get_then_delete {α β : Type} (q : QueueF α β) (st : QState)
    (now : Nat) (flag : Bool) :
    (queue_pop q st now flag).1 = (queue_get q st now none flag).1 ∧
    (∀ m, (queue_pop q st now flag).1 = .ok (some m) →
        (queue_pop q st now flag).2
          = delete_message (queue_get q st now none flag).2 m.message_id ∧
        ∀ x ∈ (queue_pop q st now flag).2.msgs, x.id ≠ m.message_id) ∧
    ((queue_pop q st now flag).1 = .ok none → (queue_pop q st now flag).2 = st) ∧
    (∀ e, (queue_pop q st now flag).1 = .error e →
        (queue_pop q st now flag).2 = (queue_get q st now none flag).2) ∧
    (∀ m, st.msgs.length ≤ 1 → (queue_pop q st now flag).1 = .ok (some m) →
        ∀ now2 vt2,
          (queue_get q (queue_pop q st now flag).2 now2 vt2 false).1
              = .ok none ∧
          (queue_pop q (queue_pop q st now flag).2 now2 false).1
              = .ok none) := by
  rcases hgm : get_message st none now with ⟨mo, st2⟩
  cases mo with
  | none =>
    obtain ⟨hst2, -⟩ := get_message_none_inv st none now st2 hgm
    cases flag with
    | false =>
      have hqg : queue_get q st now none false = (.ok none, st) := by
        simp [queue_get, hgm, hst2]
      have hpop : queue_pop q st now false = (.ok none, st) := by
        simp [queue_pop, hqg]
      refine ⟨by rw [hpop, hqg], ?_, ?_, ?_, ?_⟩
      · intro m hm
        rw [hpop] at hm
        simp at hm
      · intro _
        rw [hpop]
      · intro e he
        rw [hpop] at he
        simp at he
      · intro m _ hok
        rw [hpop] at hok
        simp at hok
    | true =>
      have hqg : queue_get q st now none true
          = (.error (.noMessageInQueue q.name), st) := by
        simp [queue_get, hgm, hst2]
      have hpop : queue_pop q st now true
          = (.error (.noMessageInQueue q.name), st) := by
        simp [queue_pop, hqg]
      refine ⟨by rw [hpop, hqg], ?_, ?_, ?_, ?_⟩
      · intro m hm
        rw [hpop] at hm
        simp at hm
      · intro h3
        rw [hpop] at h3
        simp at h3
      · intro e he
        rw [hpop, hqg]
      · intro m _ hok
        rw [hpop] at hok
        simp at hok
  | some m2 =>
    obtain ⟨m0, hsel, hm2, hst2⟩ := get_message_some_inv st none now m2 st2 hgm
    have hpostmsgs : st.msgs.length ≤ 1 →
        (delete_message st2 m2.id).msgs = [] := by
      intro hlen
      obtain ⟨hm0mem, -⟩ := selectMsg_spec st now m0 hsel
      rcases hms : st.msgs with _ | ⟨y, ys⟩
      · rw [hms] at hm0mem
        cases hm0mem
      · have hys : ys = [] := by
          rw [hms] at hlen
          simp only [List.length_cons] at hlen
          have : ys.length = 0 := by omega
          exact List.length_eq_zero.mp this
        subst hys
        have hy : m0 = y := by
          rw [hms] at hm0mem
          simpa using hm0mem
        subst hy
        rw [hst2]
        simp [delete_message, hms]
    by_cases hbe : m2.body.isEmpty
    · have hqg : queue_get q st now none flag
          = (.ok (some (toRMsg β q.name m2)), st2) := by
        simp [queue_get, hgm, hbe]
      have hpop : queue_pop q st now flag
          = (.ok (some (toRMsg β q.name m2)), delete_message st2 m2.id) := by
        simp [queue_pop, hqg, toRMsg]
      refine ⟨by rw [hpop, hqg], ?_, ?_, ?_, ?_⟩
      · intro m hm
        rw [hpop] at hm
        simp only [Except.ok.injEq, Option.some.injEq] at hm
        subst hm
        refine ⟨by rw [hpop, hqg]; try rfl, ?_⟩
        intro x hx
        rw [hpop] at hx
        have hxf := (List.mem_filter.mp hx).2
        exact of_decide_eq_true hxf
      · intro h3
        rw [hpop] at h3
        simp at h3
      · intro e he
        rw [hpop] at he
        simp at he
      · intro m hlen hok now2 vt2
        have hpost : (queue_pop q st now flag).2.msgs = [] := by
          rw [hpop]
          exact hpostmsgs hlen
        constructor
        · rw [queue_get_empty q _ hpost now2 vt2]
        · rw [queue_pop_empty q _ hpost now2]
    · rcases hd : q.deserializer m2.body with _ | v
      · have hqg : queue_get q st now none flag
            = (.error (.undeserializableMessage m2.body), st2) := by
          simp [queue_get, hgm, hbe, qdeserialize, hd]
        have hpop : queue_pop q st now flag
            = (.error (.undeserializableMessage m2.body), st2) := by
          simp [queue_pop, hqg]
        refine ⟨by rw [hpop, hqg], ?_, ?_, ?_, ?_⟩
        · intro m hm
          rw [hpop] at hm
          simp at hm
        · intro h3
          rw [hpop] at h3
          simp at h3
        · intro e he
          rw [hpop, hqg]
        · intro m _ hok
          rw [hpop] at hok
          simp at hok
      · have hqg : queue_get q st now none flag
            = (.ok (some ⟨q.name, m2.id, .parsed v, m2.rc, m2.fr⟩), st2) := by
          simp [queue_get, hgm, hbe, qdeserialize, hd]
        have hpop : queue_pop q st now flag
            = (.ok (some (⟨q.name, m2.id, .parsed v, m2.rc, m2.fr⟩ : RMsg β)),
               delete_message st2 m2.id) := by
          simp [queue_pop, hqg]
        refine ⟨by rw [hpop, hqg], ?_, ?_, ?_, ?_⟩
        · intro m hm
          rw [hpop] at hm
          simp only [Except.ok.injEq, Option.some.injEq] at hm
          subst hm
          refine ⟨by rw [hpop, hqg]; try rfl, ?_⟩
          intro x hx
          rw [hpop] at hx
          have hxf := (List.mem_filter.mp hx).2
          exact of_decide_eq_true hxf
        · intro h3
          rw [hpop] at h3
          simp at h3
        · intro e he
          rw [hpop] at he
          simp at he
        · intro m hlen hok now2 vt2
          have hpost : (queue_pop q st now flag).2.msgs = [] := by
            rw [hpop]
            exact hpostmsgs hlen
          constructor
          · rw [queue_get_empty q _ hpost now2 vt2]
          · rw [queue_pop_empty q _ hpost now2]

/-- Witness for C5: popping the single ready message returns the same
message `get` would return, and a subsequent `get` on the emptied queue
returns `None`. -/
theorem c5_pop_is_get_then_delete_witness :
    (queue_pop exIdQueueF exQueue1 0 false).1
        = (queue_get exIdQueueF exQueue1 0 none false).1 ∧
    (queue_get exIdQueueF (queue_pop exIdQueueF exQueue1 0 false).2
        7 none false).1 = .ok none := by
  refine ⟨(c5_pop_is_get_then_delete exIdQueueF exQueue1 0 false).1, ?_⟩
  have h := (c5_pop_is_get_then_delete exIdQueueF exQueue1 0 false).2.2.2.2
    ⟨"q", "A", .parsed [102, 111, 111], 1, 0⟩ (by decide) rfl 7 none
  exact h.1

end Psmq
